import Mathlib

/-!
Verification of the webdavfs client against its specification.

This file shallowly embeds the pure/algorithmic core of the repository:
Go stdlib path helpers (`path.Clean`, `path.Join`, `path.Base`,
`path.IsAbs`, `strings.TrimPrefix`) used by the client, the error mapper
`httpStatusToOSError`, configuration validation, URL construction
(`buildURL`), multistatus-to-FileInfo translation (`parseFileInfo`,
`stat`, `readDir`), and the per-handle state machines (`OpenFile`,
`Seek`, `Readdir`, `Write`, `Sync`, `Close`).

HTTP round trips and the XML tokenizer are external collaborators; where
a function branches on their outcome, the outcome is passed in as an
explicit `Except`/oracle argument and the function body mirrors the Go
control flow over it.
-/

namespace Webdavfs

/-! ### Go `path` package primitives, over `List Char`

`path.Clean` is lexical: split on `/`, drop empty and `.` segments,
let `..` pop the previous segment (on a rooted path a `..` at the root is
dropped; on an unrooted path it is kept), then rejoin, keeping one
leading separator for rooted paths, and returning `.` for an empty
result. -/

/-- Split a character list into its nonempty `/`-separated segments.
The first argument accumulates the current (reversed-not) segment. -/
def segsAux : List Char → List Char → List (List Char)
  | cur, [] => if cur = [] then [] else [cur]
  | cur, c :: cs =>
    if c = '/' then
      if cur = [] then segsAux [] cs else cur :: segsAux [] cs
    else
      segsAux (cur ++ [c]) cs

/-- The nonempty `/`-separated segments of a path. -/
def segsOf (p : List Char) : List (List Char) := segsAux [] p

/-- One step of Go `path.Clean`'s segment processing: `.` is dropped,
`..` pops the previous segment when one is available and is itself not a
kept `..`; otherwise it is dropped on a rooted path and kept on an
unrooted one. -/
def cleanStep (rooted : Bool) (acc : List (List Char)) (seg : List Char) :
    List (List Char) :=
  if seg = ['.'] then acc
  else if seg = ['.', '.'] then
    if acc ≠ [] ∧ acc.getLast? ≠ some ['.', '.'] then acc.dropLast
    else if rooted then acc
    else acc ++ [seg]
  else acc ++ [seg]

/-- Process a segment list as Go `path.Clean` does. -/
def cleanSegs (rooted : Bool) (segs : List (List Char)) : List (List Char) :=
  segs.foldl (cleanStep rooted) []

/-- Join segments with `/` (no leading separator). -/
def joinSegs : List (List Char) → List Char
  | [] => []
  | [s] => s
  | s :: rest => s ++ '/' :: joinSegs rest

/-- Go `path.Clean` over a character list. -/
def pathCleanL (p : List Char) : List Char :=
  if p = [] then ['.']
  else
    let rooted := p.head? = some '/'
    let out := (if rooted then ['/'] else []) ++
      joinSegs (cleanSegs rooted (segsOf p))
    if out = [] then ['.'] else out

/-- Go `path.Clean` over a string. -/
def pathClean (p : String) : String := ⟨pathCleanL p.data⟩

/-- Go `path.Join` restricted to two elements: empty elements are
dropped, and the result of joining the rest with `/` is cleaned; the
all-empty join is `""` (no clean applied). -/
def pathJoin2 (a b : String) : String :=
  if a = "" then (if b = "" then "" else pathClean b)
  else if b = "" then pathClean a
  else pathClean (a ++ "/" ++ b)

/-- Go `path.IsAbs`. -/
def pathIsAbs (p : String) : Bool := p.data.head? = some '/'

/-- Go `path.Base` over a character list: empty input gives `.`,
trailing separators are stripped, an all-separator input gives `/`, and
otherwise the part after the last separator is returned. -/
def pathBaseL (p : List Char) : List Char :=
  if p = [] then ['.']
  else
    let p1 := (p.reverse.dropWhile (· = '/')).reverse
    if p1 = [] then ['/']
    else
      let nm := (p1.reverse.takeWhile (· ≠ '/')).reverse
      if nm = [] then ['/'] else nm

/-- Go `path.Base` over a string. -/
def pathBase (p : String) : String := ⟨pathBaseL p.data⟩

/-- Go `strings.TrimPrefix s "/"`: remove one leading `/` if present. -/
def trimOneSlash (s : String) : String :=
  if s.data.head? = some '/' then ⟨s.data.tail⟩ else s

/-! ### Error taxonomy

Shallow embedding of the error values the client produces: `os.PathError`
with the sentinel it wraps, `WebDAVError`, the custom closed-file and
seek errors, and a constructor for transport (`http.Client.Do`) failures
wrapped in a `PathError`. -/

/-- The client's error values. -/
inductive FsErr where
  /-- `os.PathError` wrapping `os.ErrNotExist`. -/
  | notExist (op p : String)
  /-- `os.PathError` wrapping `os.ErrExist`. -/
  | exist (op p : String)
  /-- `os.PathError` wrapping `os.ErrPermission`. -/
  | permission (op p : String)
  /-- `os.PathError` wrapping the `insufficient storage` message. -/
  | insufficientStorage (op p : String)
  /-- `os.PathError` wrapping `os.ErrInvalid`. -/
  | invalid (op p : String)
  /-- `os.PathError` wrapping the formatted `http status <code>` error. -/
  | httpStatus (code : Int) (op p : String)
  /-- `WebDAVError` with raw status, method, path and body text. -/
  | webdav (code : Int) (method p msg : String)
  /-- `FileClosedError`. -/
  | closedFile (p : String)
  /-- `InvalidSeekError`. -/
  | invalidSeek (offset whence : Int)
  /-- `os.PathError` wrapping a transport or decoding failure. -/
  | wrapped (op p : String)
deriving DecidableEq, Repr

/-- `os.IsNotExist` on our taxonomy: true exactly for a `PathError`
wrapping `os.ErrNotExist`. -/
def isNotExist : FsErr → Bool
  | .notExist _ _ => true
  | _ => false

/-- `httpStatusToOSError` from errors.go: maps an HTTP status code and a
path to an `os` error. -/
def httpStatusToOSError (statusCode : Int) (p : String) : FsErr :=
  if statusCode = 404 then .notExist "stat" p
  else if statusCode = 403 then .permission "access" p
  else if statusCode = 409 then .notExist "create" p
  else if statusCode = 412 then .exist "create" p
  else if statusCode = 423 then .permission "access" p
  else if statusCode = 507 then .insufficientStorage "write" p
  else .httpStatus statusCode "webdav" p

/-! ### Configuration validation -/

/-- The fields of `Config` that `validate` inspects. -/
structure ConfigM where
  url : String
  username : String
  password : String
  bearerToken : String
deriving DecidableEq, Repr

/-- A `ConfigError` value: offending field plus reason. -/
structure ConfigErrorM where
  field : String
  reason : String
deriving DecidableEq, Repr

/-- `Config.validate` from config.go: a missing URL fails, then bearer
token and basic credentials are checked for mutual exclusion. -/
def validate (c : ConfigM) : Option ConfigErrorM :=
  if c.url = "" then some ⟨"URL", "URL is required"⟩
  else if c.bearerToken ≠ "" ∧ (c.username ≠ "" ∨ c.password ≠ "") then
    some ⟨"Authentication",
      "BearerToken and Username/Password are mutually exclusive"⟩
  else none

/-! ### URL construction (`webdavClient`) -/

/-- `newWebDAVClient`'s base-path normalization: append `/` unless the
path already ends with one. -/
def ensureTrailingSlash (p : String) : String :=
  if p.data.getLast? = some '/' then p else p ++ "/"

/-- The path component of `buildURL`: clean the logical path to a rooted
path, then `path.Join` it onto the base URL path. -/
def buildURLPath (basePath pathStr : String) : String :=
  pathJoin2 basePath (pathClean ("/" ++ trimOneSlash pathStr))

/-! ### Property codec (`properties.go`) -/

/-- The property block of one multistatus response entry, with the raw
string fields the decoder produces. `isCollection` is the presence of
the `collection` marker in the resource type. -/
structure PropM where
  displayName : String
  getContentLength : String
  getLastModified : String
  isCollection : Bool
  getETag : String
  getContentType : String
  creationDate : String
deriving DecidableEq, Repr

/-- One multistatus response entry: href plus property block. -/
structure ResponseM where
  href : String
  prop : PropM
deriving DecidableEq, Repr

/-- A parsed multistatus document: the ordered response entries. -/
structure MultistatusM where
  responses : List ResponseM
deriving DecidableEq, Repr

/-- `os.ModeDir` bit. -/
def modeDir : Nat := 2 ^ 31

/-- The metadata record behind the client's `os.FileInfo`
(`fileInfo` in properties.go); times are an abstract tick count. -/
structure FileInfoM where
  name : String
  size : Int
  mode : Nat
  modTime : Int
  isDir : Bool
deriving DecidableEq, Repr

/-- Digit accumulation for `strconv.ParseInt`: all characters must be
decimal digits. -/
def decVal (acc : Nat) : List Char → Option Nat
  | [] => some acc
  | c :: cs =>
    if '0' ≤ c ∧ c ≤ '9' then decVal (acc * 10 + (c.toNat - '0'.toNat)) cs
    else none

/-- Go `strconv.ParseInt(s, 10, 64)` as an `Option`: optional sign,
then decimal digits, rejecting the empty digit string and values outside
the signed 64-bit range. -/
def goParseInt64 (s : String) : Option Int :=
  match s.data with
  | [] => none
  | c :: rest =>
    let neg := c = '-'
    let ds := if c = '-' ∨ c = '+' then rest else c :: rest
    if ds = [] then none
    else
      match decVal 0 ds with
      | none => none
      | some n =>
        let v : Int := if neg then -(n : Int) else (n : Int)
        if v < -(2 ^ 63) ∨ 2 ^ 63 - 1 < v then none else some v

/-- `parseWebDAVTime`, with the stdlib `time.Parse` supplied as the
oracle `tp layout s` (external collaborator): the layouts are tried in
the order of the source and the first success wins; `none` is the
final-failure error value. -/
def parseWebDAVTime (tp : String → String → Option Int) (s : String) :
    Option Int :=
  let layouts :=
    ["Mon, 02 Jan 2006 15:04:05 MST",
     "2006-01-02T15:04:05Z07:00",
     "Mon, 02 Jan 2006 15:04:05 MST",
     "Mon, 02 Jan 2006 15:04:05 GMT",
     "2006-01-02T15:04:05Z",
     "Mon, 02 Jan 2006 15:04:05 -0700"]
  layouts.findSome? (fun l => tp l s)

/-- `parseFileInfo` from properties.go: name from the href's base (after
trimming one leading slash) with fallback to the base of the requested
path when that yields `""` or `/`; size via `ParseInt` defaulting to 0;
modified time via `parseWebDAVTime` defaulting to `now`; directory-ness
from the collection marker; fixed synthesized modes. The Go function
always returns a nil error, so the embedding is total. -/
def parseFileInfo (tp : String → String → Option Int) (now : Int)
    (resp : ResponseM) (basePath : String) : FileInfoM :=
  let href := trimOneSlash resp.href
  let name0 := pathBase href
  let name := if name0 = "" ∨ name0 = "/" then pathBase basePath else name0
  let size : Int :=
    if resp.prop.getContentLength = "" then 0
    else (goParseInt64 resp.prop.getContentLength).getD 0
  let modTime : Int :=
    if resp.prop.getLastModified = "" then now
    else (parseWebDAVTime tp resp.prop.getLastModified).getD now
  let isDir := resp.prop.isCollection
  let mode : Nat := if isDir then 0o755 ||| modeDir else 0o644
  { name := name, size := size, mode := mode, modTime := modTime,
    isDir := isDir }

/-! ### stat and readDir (`webdavClient`)

Both run a PROPFIND round trip and post-process the parsed multistatus;
the round-trip outcome is the `pf` argument (a 404 or non-207 status and
transport/parse failures arrive as `.error`, a parsed 207 body as
`.ok`). -/

/-- `webdavClient.stat`: an empty multistatus becomes a not-exist error,
otherwise the first entry is translated. -/
def statPF (tp : String → String → Option Int) (now : Int)
    (pf : Except FsErr MultistatusM) (pathStr : String) :
    Except FsErr FileInfoM :=
  match pf with
  | .error e => .error e
  | .ok ms =>
    match ms.responses with
    | [] => .error (.notExist "stat" pathStr)
    | r :: _ => .ok (parseFileInfo tp now r pathStr)

/-- `webdavClient.readDir`: the listed path gets a trailing slash, an
empty multistatus yields an empty listing with no error, and otherwise
the first entry (the directory itself) is skipped and the rest
translated. -/
def readDirPF (tp : String → String → Option Int) (now : Int)
    (pf : Except FsErr MultistatusM) (pathStr : String) :
    Except FsErr (List FileInfoM) :=
  let p := if pathStr.data.getLast? = some '/' then pathStr
    else pathStr ++ "/"
  match pf with
  | .error e => .error e
  | .ok ms =>
    match ms.responses with
    | [] => .ok []
    | _ :: rest => .ok (rest.map (fun r => parseFileInfo tp now r p))

/-! ### Client filesystem facade state machines -/

/-- Go `os` open-flag bits (linux values used by the Go toolchain). -/
def oWRONLY : Nat := 1

/-- `os.O_RDWR`. -/
def oRDWR : Nat := 2

/-- `os.O_CREATE`. -/
def oCREATE : Nat := 64

/-- `os.O_EXCL`. -/
def oEXCL : Nat := 128

/-- `os.O_TRUNC`. -/
def oTRUNC : Nat := 512

/-- `os.O_APPEND`. -/
def oAPPEND : Nat := 1024

/-- `FileSystem.cleanPath`: absolute paths are cleaned as-is, relative
ones joined onto the working directory and cleaned. -/
def cleanPath (cwd name : String) : String :=
  if pathIsAbs name then pathClean name
  else pathClean (pathJoin2 cwd name)

/-- The remote operations `OpenFile` can issue, in order. -/
inductive RemOp where
  /-- A depth-0 PROPFIND (`client.stat`). -/
  | statOp (p : String)
  /-- A whole-body PUT of empty content (`client.put(p, "")`). -/
  | putEmpty (p : String)
deriving DecidableEq, Repr

/-- The round-trip outcomes `OpenFile` may consume: the first stat, the
empty-content PUT, and the re-stat after a create. -/
structure OpenEnv where
  stat1 : Except FsErr FileInfoM
  putRes : Option FsErr
  stat2 : Except FsErr FileInfoM
deriving Repr

/-- The client-side handle state `OpenFile` constructs. -/
structure FileH where
  path : String
  flag : Nat
  offset : Int
  info : FileInfoM
deriving DecidableEq, Repr

/-- Handle construction at the end of `OpenFile`: append mode seeds the
offset at the current size. -/
def mkFileH (p : String) (flag : Nat) (info : FileInfoM) : FileH :=
  { path := p, flag := flag,
    offset := if flag &&& oAPPEND ≠ 0 then info.size else 0,
    info := info }

/-- `FileSystem.OpenFile` from webdavfs.go, with the remote round-trip
outcomes supplied by `env`; also returns the ordered trace of remote
operations issued. -/
def openFileF (env : OpenEnv) (cwd name : String) (flag : Nat) :
    Except FsErr FileH × List RemOp :=
  let p := cleanPath cwd name
  match env.stat1 with
  | .error e =>
    if ¬ isNotExist e then (.error e, [.statOp p])
    else if flag &&& oCREATE = 0 then
      (.error (.notExist "open" p), [.statOp p])
    else
      match env.putRes with
      | some pe => (.error pe, [.statOp p, .putEmpty p])
      | none =>
        match env.stat2 with
        | .error e2 => (.error e2, [.statOp p, .putEmpty p, .statOp p])
        | .ok info =>
          (.ok (mkFileH p flag info), [.statOp p, .putEmpty p, .statOp p])
  | .ok info =>
    if flag &&& oCREATE ≠ 0 ∧ flag &&& oEXCL ≠ 0 then
      (.error (.exist "open" p), [.statOp p])
    else if flag &&& oTRUNC ≠ 0 ∧ ¬ info.isDir then
      match env.putRes with
      | some pe => (.error pe, [.statOp p, .putEmpty p])
      | none => (.ok (mkFileH p flag info), [.statOp p, .putEmpty p])
    else (.ok (mkFileH p flag info), [.statOp p])

/-- The handle state `File.Seek` reads and writes. -/
structure SeekSt where
  path : String
  closed : Bool
  offset : Int
  info : Option FileInfoM
  hasReader : Bool
deriving DecidableEq, Repr

/-- `File.Seek`, with the stat the `SeekEnd`-without-metadata case would
perform supplied as `statRes`. Returns the result and the updated handle
state. -/
def seekF (statRes : Except FsErr FileInfoM) (s : SeekSt)
    (offset whence : Int) : Except FsErr Int × SeekSt :=
  if s.closed then (.error (.closedFile s.path), s)
  else
    let cont : SeekSt → Int → Except FsErr Int × SeekSt := fun s1 newOffset =>
      if newOffset < 0 then (.error (.invalidSeek offset whence), s1)
      else
        let s2 := if s1.hasReader ∧ newOffset ≠ s1.offset then
            { s1 with hasReader := false }
          else s1
        (.ok newOffset, { s2 with offset := newOffset })
    if whence = 0 then cont s offset
    else if whence = 1 then cont s (s.offset + offset)
    else if whence = 2 then
      match s.info with
      | some i => cont s (i.size + offset)
      | none =>
        match statRes with
        | .error e => (.error e, s)
        | .ok i => cont { s with info := some i } (i.size + offset)
    else (.error (.invalidSeek offset whence), s)

/-- The handle state `File.Readdir` reads and writes. -/
structure DirSt where
  path : String
  closed : Bool
  isDir : Bool
  dirInfos : Option (List FileInfoM)
  dirIndex : Nat
deriving DecidableEq, Repr

/-- A `Readdir` outcome: entries, the `io.EOF` end-of-listing signal, or
an error. -/
inductive RdOut where
  | entries (l : List FileInfoM)
  | eof
  | err (e : FsErr)
deriving DecidableEq, Repr

/-- The pagination core of `File.Readdir`, after the cache `infos` is
loaded: a non-positive count drains the remainder (EOF when empty), a
positive count returns the next slice, EOF once the index is past the
end. -/
def readdirPage (s : DirSt) (infos : List FileInfoM) (n : Int) :
    RdOut × DirSt :=
  if n ≤ 0 then
    let result := infos.drop s.dirIndex
    let s1 := { s with dirIndex := infos.length }
    if result = [] then (.eof, s1) else (.entries result, s1)
  else if infos.length ≤ s.dirIndex then (.eof, s)
  else
    let endI := min (s.dirIndex + n.toNat) infos.length
    (.entries ((infos.drop s.dirIndex).take n.toNat),
      { s with dirIndex := endI })

/-- `File.Readdir`, with the `readDir` round trip a first call would
perform supplied as `remote`: closed and non-directory handles fail, the
child list is loaded into the cache once, then `readdirPage` serves
pages from the cache. -/
def readdirF (remote : Except FsErr (List FileInfoM)) (s : DirSt)
    (n : Int) : RdOut × DirSt :=
  if s.closed then (.err (.closedFile s.path), s)
  else if ¬ s.isDir then (.err (.invalid "readdir" s.path), s)
  else
    match s.dirInfos with
    | some infos => readdirPage s infos n
    | none =>
      match remote with
      | .error e => (.err e, s)
      | .ok infos =>
        readdirPage { s with dirInfos := some infos, dirIndex := 0 } infos n

/-- The handle state for the write/flush path, together with the
observable effects of PUT round trips: `remote` is the content stored by
the last PUT and `puts` the ordered trace of uploads. Bytes are modelled
as `Nat`. The PUT round trip itself is modelled as succeeding with the
transport reading the request body to the end — which drains the
`bytes.Buffer` the Go code passes as the body. -/
structure WrSt where
  path : String
  flag : Nat
  offset : Int
  isDir : Bool
  buffer : Option (List Nat)
  modified : Bool
  closed : Bool
  hasReader : Bool
  remote : Option (List Nat)
  puts : List (String × List Nat)
deriving DecidableEq, Repr

/-- `File.Write`: mode and directory checks, then append to the
lazily-created accumulation buffer, advance the offset and set the
modified flag; nothing is sent to the network. -/
def writeF (s : WrSt) (b : List Nat) : Except FsErr Nat × WrSt :=
  if s.closed then (.error (.closedFile s.path), s)
  else if s.flag &&& (oWRONLY ||| oRDWR) = 0 then
    (.error (.invalid "write" s.path), s)
  else if s.isDir then (.error (.invalid "write" s.path), s)
  else
    let buf1 := s.buffer.getD [] ++ b
    (.ok b.length,
      { s with
          buffer := some buf1, offset := s.offset + b.length,
          modified := true })

/-- `File.Sync`: when modified with an allocated buffer, PUT the buffer
itself as the request body (draining it) and clear the modified flag. -/
def syncF (s : WrSt) : Except FsErr Unit × WrSt :=
  if s.closed then (.error (.closedFile s.path), s)
  else if s.modified ∧ s.buffer.isSome then
    let content := s.buffer.getD []
    (.ok (),
      { s with
          buffer := some [], remote := some content,
          puts := s.puts ++ [(s.path, content)], modified := false })
  else (.ok (), s)

/-- `File.Close`: idempotent; the first call closes any reader and, when
modified with an allocated buffer, PUTs the buffer (draining it). -/
def closeF (s : WrSt) : Except FsErr Unit × WrSt :=
  if s.closed then (.ok (), s)
  else
    let s1 := { s with closed := true, hasReader := false }
    if s1.modified ∧ s1.buffer.isSome then
      let content := s1.buffer.getD []
      (.ok (),
        { s1 with
            buffer := some [], remote := some content,
            puts := s1.puts ++ [(s1.path, content)] })
    else (.ok (), s1)

/-! ### proppatch / Chtimes -/

/-- `webdavClient.proppatch` over the round-trip outcome: a transport
failure is returned as-is; any response status — 207 or not — yields
success (non-207 is deliberately treated as non-fatal). -/
def proppatchF (resp : Except FsErr Int) : Except FsErr Unit :=
  match resp with
  | .error e => .error e
  | .ok _status => .ok ()

/-- `FileSystem.Chtimes`: clean the path, then delegate to proppatch and
return its result. -/
def chtimesF (resp : Except FsErr Int) (_cwd _name : String) :
    Except FsErr Unit :=
  proppatchF resp

/-- Page-by-page driver for `File.Readdir` used to state the pagination
claim: call `readdirF` with count `k` repeatedly, concatenating the
returned pages, stopping at the EOF signal (or an error, or when the
fuel runs out). -/
def paginate (remote : Except FsErr (List FileInfoM)) (k : Int) :
    Nat → DirSt → List FileInfoM
  | 0, _ => []
  | fuel + 1, s =>
    match readdirF remote s k with
    | (.entries l, s1) => l ++ paginate remote k fuel s1
    | _ => []

/-! ## Theorems -/

/-! ### Path lemmas for URL construction -/

theorem segsAux_append_slash (b : List Char) :
    ∀ (a cur : List Char),
      segsAux cur (a ++ '/' :: b) = segsAux cur a ++ segsAux [] b := by
  intro a
  induction a with
  | nil =>
    intro cur
    by_cases h : cur = [] <;> simp [segsAux, h]
  | cons c a ih =>
    intro cur
    by_cases hc : c = '/'
    · by_cases h : cur = [] <;> simp [segsAux, hc, h, ih]
    · simp [segsAux, hc, ih]

/-- Segments produced by `segsAux` are nonempty and slash-free. -/
theorem segsAux_wf (p : List Char) :
    ∀ cur : List Char, '/' ∉ cur →
      ∀ x ∈ segsAux cur p, x ≠ [] ∧ '/' ∉ x := by
  induction p with
  | nil =>
    intro cur hcur x hx
    by_cases h : cur = [] <;> simp [segsAux, h] at hx
    subst hx; exact ⟨h, hcur⟩
  | cons c cs ih =>
    intro cur hcur x hx
    by_cases hc : c = '/'
    · by_cases h : cur = [] <;> simp [segsAux, hc, h] at hx
      · exact ih [] (by simp) x hx
      · rcases hx with hx | hx
        · subst hx; exact ⟨h, hcur⟩
        · exact ih [] (by simp) x hx
    · simp [segsAux, hc] at hx
      refine ih (cur ++ [c]) ?_ x hx
      simp [hcur, Ne.symm hc]

/-- A segment in the output of one `cleanStep` is from the accumulator
or the processed segment itself. -/
theorem cleanStep_mem (r : Bool) (acc : List (List Char))
    (seg y : List Char) (hy : y ∈ cleanStep r acc seg) :
    y ∈ acc ∨ y = seg := by
  unfold cleanStep at hy
  split at hy
  · exact .inl hy
  · split at hy
    · split at hy
      · exact .inl (List.dropLast_subset _ hy)
      · split at hy
        · exact .inl hy
        · rcases List.mem_append.1 hy with h | h
          · exact .inl h
          · simp at h; exact .inr h
    · rcases List.mem_append.1 hy with h | h
      · exact .inl h
      · simp at h; exact .inr h

/-- On a rooted path, `cleanStep` only ever appends plain segments
(never `.` or `..`). -/
theorem cleanStep_mem_rooted (acc : List (List Char)) (seg y : List Char)
    (hy : y ∈ cleanStep true acc seg) :
    y ∈ acc ∨ (y = seg ∧ seg ≠ ['.'] ∧ seg ≠ ['.', '.']) := by
  unfold cleanStep at hy
  split at hy
  · exact .inl hy
  · rename_i h1
    split at hy
    · split at hy
      · exact .inl (List.dropLast_subset _ hy)
      · simp only [if_pos rfl] at hy
        exact .inl hy
    · rename_i h2
      rcases List.mem_append.1 hy with h | h
      · exact .inl h
      · simp at h; exact .inr ⟨h, h1, h2⟩

/-- Nonemptiness and slash-freeness of segments survive the clean fold. -/
theorem cleanSegs_wf_aux (r : Bool) (S : List (List Char)) :
    ∀ acc : List (List Char),
      (∀ x ∈ acc, x ≠ [] ∧ '/' ∉ x) → (∀ x ∈ S, x ≠ [] ∧ '/' ∉ x) →
      ∀ x ∈ S.foldl (cleanStep r) acc, x ≠ [] ∧ '/' ∉ x := by
  induction S with
  | nil => intro acc hacc _ x hx; exact hacc x hx
  | cons seg S ih =>
    intro acc hacc hS x hx
    simp only [List.foldl_cons] at hx
    refine ih (cleanStep r acc seg) (fun y hy => ?_)
      (fun y hy => hS y (by simp [hy])) x hx
    rcases cleanStep_mem r acc seg y hy with h | h
    · exact hacc y h
    · exact h ▸ hS seg (by simp)

/-- On a rooted path the clean fold emits no `.` or `..` segment. -/
theorem cleanSegs_nodots_aux (S : List (List Char)) :
    ∀ acc : List (List Char),
      (∀ x ∈ acc, x ≠ ['.'] ∧ x ≠ ['.', '.']) →
      ∀ x ∈ S.foldl (cleanStep true) acc, x ≠ ['.'] ∧ x ≠ ['.', '.'] := by
  induction S with
  | nil => intro acc hacc x hx; exact hacc x hx
  | cons seg S ih =>
    intro acc hacc x hx
    simp only [List.foldl_cons] at hx
    refine ih (cleanStep true acc seg) (fun y hy => ?_) x hx
    rcases cleanStep_mem_rooted acc seg y hy with h | ⟨h1, h2⟩
    · exact hacc y h
    · exact h1 ▸ h2

/-- Folding `cleanStep` over dot-free segments just appends them. -/
theorem foldl_cleanStep_nodots (r : Bool) (B : List (List Char)) :
    ∀ acc : List (List Char),
      (∀ x ∈ B, x ≠ ['.'] ∧ x ≠ ['.', '.']) →
      B.foldl (cleanStep r) acc = acc ++ B := by
  induction B with
  | nil => intro acc _; simp
  | cons seg B ih =>
    intro acc hB
    have hseg := hB seg (by simp)
    simp only [List.foldl_cons]
    rw [show cleanStep r acc seg = acc ++ [seg] by
      unfold cleanStep; rw [if_neg hseg.1, if_neg hseg.2]]
    rw [ih (acc ++ [seg]) (fun y hy => hB y (by simp [hy]))]
    simp

theorem segsAux_append_noslash (s : List Char) (hs : '/' ∉ s) :
    ∀ (cur t : List Char), segsAux cur (s ++ t) = segsAux (cur ++ s) t := by
  induction s with
  | nil => intro cur t; simp
  | cons c s ih =>
    intro cur t
    have hc : c ≠ '/' := fun h => hs (by simp [h])
    have hs' : '/' ∉ s := fun h => hs (by simp [h])
    show segsAux cur (c :: s ++ t) = segsAux (cur ++ c :: s) t
    rw [List.cons_append,
      show segsAux cur (c :: (s ++ t)) = segsAux (cur ++ [c]) (s ++ t) by
        simp [segsAux, hc],
      ih hs' (cur ++ [c]) t]
    simp

/-- Splitting the join of nonempty slash-free segments recovers them. -/
theorem segsAux_joinSegs (A : List (List Char))
    (hA : ∀ x ∈ A, x ≠ [] ∧ '/' ∉ x) : segsAux [] (joinSegs A) = A := by
  induction A with
  | nil => simp [joinSegs, segsAux]
  | cons s A ih =>
    have hs := hA s (by simp)
    cases A with
    | nil =>
      show segsAux [] (joinSegs [s]) = [s]
      rw [show joinSegs [s] = s from rfl,
        show (s : List Char) = s ++ [] by simp,
        segsAux_append_noslash s hs.2 [] []]
      simp [segsAux, hs.1]
    | cons t A' =>
      show segsAux [] (s ++ '/' :: joinSegs (t :: A')) = s :: t :: A'
      rw [segsAux_append_slash, show (s : List Char) = s ++ [] by simp,
        segsAux_append_noslash s hs.2 [] [],
        ih (fun y hy => hA y (by simp [hy]))]
      simp [segsAux, hs.1]

theorem joinSegs_head_ne_slash (A : List (List Char))
    (hA : ∀ x ∈ A, x ≠ [] ∧ '/' ∉ x) : (joinSegs A).head? ≠ some '/' := by
  cases A with
  | nil => simp [joinSegs]
  | cons s rest =>
    have hs := hA s (by simp)
    cases s with
    | nil => exact absurd rfl hs.1
    | cons c s' =>
      have hc : c ≠ '/' := fun h => hs.2 (h ▸ by simp)
      cases rest <;> simp [joinSegs, hc]

/-- `path.Clean` on a rooted path: leading separator plus the cleaned
segments. -/
theorem pathCleanL_rooted (w : List Char) :
    pathCleanL ('/' :: w) = '/' :: joinSegs (cleanSegs true (segsOf w)) := by
  unfold pathCleanL
  have h1 : segsOf ('/' :: w) = segsOf w := by simp [segsOf, segsAux]
  simp [h1]

/-- Well-formedness of the cleaned segments of any path. -/
theorem cleanSegs_segsOf_wf (w : List Char) :
    ∀ x ∈ cleanSegs true (segsOf w), x ≠ [] ∧ '/' ∉ x :=
  cleanSegs_wf_aux true _ [] (by simp) (segsAux_wf w [] (by simp))

/-- The cleaned segments of a rooted path contain no dot segments. -/
theorem cleanSegs_segsOf_nodots (w : List Char) :
    ∀ x ∈ cleanSegs true (segsOf w), x ≠ ['.'] ∧ x ≠ ['.', '.'] :=
  cleanSegs_nodots_aux _ [] (by simp)

/-- Cleaning a rooted base joined onto an already-cleaned rooted path
concatenates their cleaned segment lists. -/
theorem pathCleanL_append_cleaned (w t : List Char) :
    pathCleanL (('/' :: w) ++ '/' :: pathCleanL ('/' :: t)) =
      '/' :: joinSegs (cleanSegs true (segsOf w) ++
        cleanSegs true (segsOf t)) := by
  have hwf := cleanSegs_segsOf_wf t
  have hnd := cleanSegs_segsOf_nodots t
  rw [pathCleanL_rooted t]
  show pathCleanL ('/' :: (w ++ '/' :: '/' ::
    joinSegs (cleanSegs true (segsOf t)))) = _
  rw [pathCleanL_rooted]
  congr 1
  have hsegs : segsOf (w ++ '/' :: '/' ::
      joinSegs (cleanSegs true (segsOf t))) =
      segsOf w ++ cleanSegs true (segsOf t) := by
    show segsAux [] (w ++ '/' :: '/' ::
      joinSegs (cleanSegs true (segsOf t))) = _
    rw [segsAux_append_slash]
    show segsOf w ++ segsAux [] ('/' ::
      joinSegs (cleanSegs true (segsOf t))) = _
    rw [show segsAux [] ('/' :: joinSegs (cleanSegs true (segsOf t))) =
        segsAux [] (joinSegs (cleanSegs true (segsOf t))) by
      simp [segsAux]]
    rw [segsAux_joinSegs _ hwf]
  rw [hsegs]
  congr 1
  show List.foldl (cleanStep true) []
    (segsOf w ++ cleanSegs true (segsOf t)) = _
  rw [List.foldl_append]
  exact foldl_cleanStep_nodots true _ _ hnd

theorem joinSegs_append (A B : List (List Char)) (hA : A ≠ [])
    (hB : B ≠ []) : joinSegs (A ++ B) = joinSegs A ++ '/' :: joinSegs B := by
  induction A with
  | nil => exact absurd rfl hA
  | cons s A ih =>
    cases A with
    | nil =>
      cases B with
      | nil => exact absurd rfl hB
      | cons b B' => simp [joinSegs]
    | cons t A' =>
      show joinSegs (s :: (t :: A' ++ B)) = _
      rw [show joinSegs (s :: (t :: A' ++ B)) =
          s ++ '/' :: joinSegs (t :: A' ++ B) from rfl]
      rw [ih (by simp) ]
      simp [joinSegs]

/-! ### C3: URL construction never escapes the base -/

/-- C3 counterexample: `buildURL` with the normalized base path `/dav/`
(as stored by `newWebDAVClient` for a configured URL ending in `/dav/`)
and the logical path `/` produces `/dav`, which does not have the base
path `/dav/` as a prefix. -/
theorem buildURL_base_not_prefix :
    buildURLPath "/dav/" "/" = "/dav" ∧
    ensureTrailingSlash "/dav/" = "/dav/" ∧
    ¬ ("/dav/" : String).data <+: (buildURLPath "/dav/" "/").data := by
  refine ⟨by decide, by decide, ?_⟩
  rw [show buildURLPath "/dav/" "/" = "/dav" by decide]
  decide

/-- C3 (amended): for every rooted base path and every logical path,
`buildURL` cleans the logical path to start with a single leading
separator, the segments of the joined result are exactly the cleaned
base's segments followed by the cleaned logical path's segments (so the
join never escapes the base path's root), and the cleaned base path is a
prefix of the result. The base path itself need not be a prefix when it
carries a trailing separator (see the counterexample). -/
theorem buildURL_spec (base p : String) (hb : base.data.head? = some '/') :
    (pathClean ("/" ++ trimOneSlash p)).data.head? = some '/' ∧
    (pathClean ("/" ++ trimOneSlash p)).data.tail.head? ≠ some '/' ∧
    segsOf (buildURLPath base p).data =
      segsOf (pathClean base).data ++
        segsOf (pathClean ("/" ++ trimOneSlash p)).data ∧
    (pathClean base).data <+: (buildURLPath base p).data := by
  obtain ⟨w, hw⟩ : ∃ w, base.data = '/' :: w := by
    cases hd : base.data with
    | nil => rw [hd] at hb; simp at hb
    | cons c cs =>
      rw [hd] at hb; simp at hb
      exact ⟨cs, by rw [hb]⟩
  have hPdata : ("/" ++ trimOneSlash p).data =
      '/' :: (trimOneSlash p).data := rfl
  have hcleaned : (pathClean ("/" ++ trimOneSlash p)).data =
      '/' :: joinSegs (cleanSegs true (segsOf (trimOneSlash p).data)) := by
    show pathCleanL (("/" ++ trimOneSlash p).data) = _
    rw [hPdata, pathCleanL_rooted]
  have hbase : (pathClean base).data =
      '/' :: joinSegs (cleanSegs true (segsOf w)) := by
    show pathCleanL base.data = _
    rw [hw, pathCleanL_rooted]
  have hb0 : base ≠ "" := by
    intro he; rw [he] at hw; simp at hw
  have hc0 : pathClean ("/" ++ trimOneSlash p) ≠ "" := by
    intro he; rw [he] at hcleaned; simp at hcleaned
  have hbuild : (buildURLPath base p).data =
      '/' :: joinSegs (cleanSegs true (segsOf w) ++
        cleanSegs true (segsOf (trimOneSlash p).data)) := by
    unfold buildURLPath pathJoin2
    rw [if_neg hb0, if_neg hc0]
    show pathCleanL ((base ++ "/" ++ pathClean ("/" ++ trimOneSlash p)).data)
      = _
    have hdata : (base ++ "/" ++ pathClean ("/" ++ trimOneSlash p)).data =
        base.data ++ '/' :: (pathClean ("/" ++ trimOneSlash p)).data := by
      show (base.data ++ ['/']) ++
        (pathClean ("/" ++ trimOneSlash p)).data = _
      simp
    rw [hdata, hw, hcleaned]
    have key := pathCleanL_append_cleaned w (trimOneSlash p).data
    rw [pathCleanL_rooted (trimOneSlash p).data] at key
    exact key
  have hwfW := cleanSegs_segsOf_wf w
  have hwfT := cleanSegs_segsOf_wf (trimOneSlash p).data
  have hwfWT : ∀ x ∈ cleanSegs true (segsOf w) ++
      cleanSegs true (segsOf (trimOneSlash p).data), x ≠ [] ∧ '/' ∉ x := by
    intro x hx
    rcases List.mem_append.1 hx with h | h
    · exact hwfW x h
    · exact hwfT x h
  have hsegsRooted : ∀ (A : List (List Char)),
      (∀ x ∈ A, x ≠ [] ∧ '/' ∉ x) →
      segsOf ('/' :: joinSegs A) = A := by
    intro A hA
    show segsAux [] ('/' :: joinSegs A) = A
    rw [show segsAux [] ('/' :: joinSegs A) = segsAux [] (joinSegs A) by
      simp [segsAux]]
    exact segsAux_joinSegs A hA
  refine ⟨by rw [hcleaned]; rfl, ?_, ?_, ?_⟩
  · rw [hcleaned]
    exact joinSegs_head_ne_slash _ hwfT
  · rw [hbuild, hbase, hcleaned, hsegsRooted _ hwfWT, hsegsRooted _ hwfW,
      hsegsRooted _ hwfT]
  · rw [hbase, hbuild]
    cases hCT : cleanSegs true (segsOf (trimOneSlash p).data) with
    | nil =>
      refine ⟨[], ?_⟩
      simp
    | cons c cs =>
      cases hCW : cleanSegs true (segsOf w) with
      | nil =>
        refine ⟨joinSegs (c :: cs), ?_⟩
        simp [joinSegs]
      | cons d ds =>
        rw [joinSegs_append _ _ (by simp) (by simp)]
        exact ⟨'/' :: joinSegs (c :: cs), by simp⟩

/-- Witness for the amended C3 theorem at a concrete base and a
traversal-laden logical path. -/
theorem buildURL_spec_witness :
    pathClean "/dav/" = "/dav" ∧
    (pathClean "/dav/").data <+: (buildURLPath "/dav/" "a/../../x").data ∧
    buildURLPath "/dav/" "a/../../x" = "/dav/x" :=
  ⟨by decide, (buildURL_spec "/dav/" "a/../../x" (by decide)).2.2.2,
    by decide⟩

/-! ### C2: the error mapper -/

/-- C2: `httpStatusToOSError` is a total function on integer status
codes mapping 404 to not-exist, 403 to permission-denied, 409 to
not-exist, 412 to already-exists, 423 to permission-denied, 507 to a
storage-exhausted error, and every other code to a generic protocol
error carrying the raw status code. -/
theorem httpStatusToOSError_spec (code : Int) (p : String) :
    httpStatusToOSError 404 p = .notExist "stat" p ∧
    httpStatusToOSError 403 p = .permission "access" p ∧
    httpStatusToOSError 409 p = .notExist "create" p ∧
    httpStatusToOSError 412 p = .exist "create" p ∧
    httpStatusToOSError 423 p = .permission "access" p ∧
    httpStatusToOSError 507 p = .insufficientStorage "write" p ∧
    (code ∉ ([404, 403, 409, 412, 423, 507] : List Int) →
      httpStatusToOSError code p = .httpStatus code "webdav" p) := by
  refine ⟨rfl, rfl, rfl, rfl, rfl, rfl, fun h => ?_⟩
  simp only [List.mem_cons, List.not_mem_nil, or_false, not_or] at h
  obtain ⟨h1, h2, h3, h4, h5, h6⟩ := h
  simp [httpStatusToOSError, h1, h2, h3, h4, h5, h6]

/-- Witness for C2 at a status code outside the mapped set. -/
theorem httpStatusToOSError_spec_witness :
    httpStatusToOSError 500 "/p" = .httpStatus 500 "webdav" "/p" :=
  (httpStatusToOSError_spec 500 "/p").2.2.2.2.2.2 (by decide)

/-! ### C9: configuration validation -/

/-- C9: validation fails with a configuration error whenever the bearer
token is set together with a username or password, and succeeds for
every configuration with a non-empty URL in which bearer token and basic
credentials are not both set. -/
theorem validate_spec (c : ConfigM) :
    (c.bearerToken ≠ "" → (c.username ≠ "" ∨ c.password ≠ "") →
      validate c ≠ none) ∧
    (c.url ≠ "" →
      ¬(c.bearerToken ≠ "" ∧ (c.username ≠ "" ∨ c.password ≠ "")) →
      validate c = none) := by
  constructor
  · intro hb hup
    by_cases hu : c.url = "" <;> simp [validate, hu, hb, hup]
  · intro hu hna
    simp [validate, hu, hna]

/-- Witness for C9: a bearer+basic configuration fails, a basic-only
configuration with a URL passes. -/
theorem validate_spec_witness :
    validate ⟨"http://h", "u", "", "tok"⟩ ≠ none ∧
    validate ⟨"http://h", "u", "pw", ""⟩ = none :=
  ⟨(validate_spec _).1 (by decide) (Or.inl (by decide)),
    (validate_spec _).2 (by decide) (by decide)⟩

/-! ### C7: PROPPATCH error swallowing -/

/-- C7 counterexample: a transport-level PROPPATCH failure (an error
from the HTTP round trip itself) is returned to the caller, not
swallowed: `proppatch` only swallows response status codes. -/
theorem proppatch_transport_error_surfaced :
    proppatchF (.error (.wrapped "PROPPATCH" "/f")) =
      .error (.wrapped "PROPPATCH" "/f") ∧
    proppatchF (.error (.wrapped "PROPPATCH" "/f")) ≠ .ok () :=
  ⟨rfl, fun h => nomatch h⟩

/-- C7 (amended): `proppatch` reports success for every HTTP response
status, 207 or otherwise, and `Chtimes` returns its result unchanged;
but a transport-level failure is surfaced to the caller, not
swallowed. -/
theorem proppatch_spec :
    (∀ status : Int, proppatchF (.ok status) = .ok ()) ∧
    (∀ e : FsErr, proppatchF (.error e) = .error e) ∧
    (∀ resp cwd name, chtimesF resp cwd name = proppatchF resp) :=
  ⟨fun _ => rfl, fun _ => rfl, fun _ _ _ => rfl⟩

/-! ### C4: empty multistatus handling -/

/-- C4 counterexample: `readDir` on a successfully parsed empty
multistatus returns an empty listing with a nil error — not a
not-exist error. -/
theorem readDir_empty_multistatus_ok :
    readDirPF (fun _ _ => none) 0 (.ok ⟨[]⟩) "/dir" = .ok [] ∧
    readDirPF (fun _ _ => none) 0 (.ok ⟨[]⟩) "/dir" ≠
      .error (.notExist "stat" "/dir/") :=
  ⟨rfl, fun h => nomatch h⟩

/-- C4 (amended): on a PROPFIND that succeeds with an empty parsed
multistatus, `stat` translates the empty body into a not-exist error,
while `readDir` returns an empty child list with no error. -/
theorem empty_multistatus_spec (tp : String → String → Option Int)
    (now : Int) (p : String) :
    statPF tp now (.ok ⟨[]⟩) p = .error (.notExist "stat" p) ∧
    readDirPF tp now (.ok ⟨[]⟩) p = .ok [] :=
  ⟨rfl, rfl⟩

/-! ### C8: name derivation in parseFileInfo -/

/-- C8 counterexample: an entry whose href is the empty string yields
the placeholder name `.` (Go `path.Base` of the empty string), not the
base name of the requested path. -/
theorem parseFileInfo_empty_href :
    (parseFileInfo (fun _ _ => none) 0
      ⟨"", ⟨"", "", "", false, "", "", ""⟩⟩ "/test.txt").name = "." ∧
    (parseFileInfo (fun _ _ => none) 0
      ⟨"", ⟨"", "", "", false, "", "", ""⟩⟩ "/test.txt").name ≠
      "test.txt" := by
  constructor <;> decide

/-- C8 (amended): the returned name is the base name of the href after
trimming one leading slash, falling back to the base name of the
requested path exactly when that base is empty or the root `/` (the
root case arises, e.g., for href `//`); an empty href yields `.`, since
`path.Base` of the empty string is `.` and never the empty string. -/
theorem parseFileInfo_name_spec (tp : String → String → Option Int)
    (now : Int) (resp : ResponseM) (basePath : String) :
    (parseFileInfo tp now resp basePath).name =
      (if pathBase (trimOneSlash resp.href) = "" ∨
          pathBase (trimOneSlash resp.href) = "/" then pathBase basePath
        else pathBase (trimOneSlash resp.href)) ∧
    (resp.href = "" →
      (parseFileInfo tp now resp basePath).name = ".") ∧
    (resp.href = "//" →
      (parseFileInfo tp now resp basePath).name = pathBase basePath) := by
  refine ⟨rfl, fun h => ?_, fun h => ?_⟩
  · simp only [parseFileInfo, h]
    rfl
  · simp only [parseFileInfo, h]
    rfl

/-- Witness for C8 (amended) at an entry with an ordinary href. -/
theorem parseFileInfo_name_spec_witness :
    (parseFileInfo (fun _ _ => none) 0
      ⟨"//", ⟨"", "", "", false, "", "", ""⟩⟩ "/d/f.txt").name =
      "f.txt" := by
  have h := (parseFileInfo_name_spec (fun _ _ => none) 0
    ⟨"//", ⟨"", "", "", false, "", "", ""⟩⟩ "/d/f.txt").2.2 rfl
  rw [h]
  decide

/-! ### C5: directory listing pagination -/

theorem take_min_drop {α : Type} (l : List α) (i n : Nat) :
    (l.drop i).take n ++ l.drop (min (i + n) l.length) = l.drop i := by
  rcases Nat.le_total (i + n) l.length with h | h
  · rw [min_eq_left h]
    have h2 : (l.drop i).drop n = l.drop (i + n) := by
      rw [List.drop_drop, Nat.add_comm]
    rw [← h2, List.take_append_drop]
  · rw [min_eq_right h, List.drop_length, List.append_nil]
    apply List.take_of_length_le
    rw [List.length_drop]
    omega

/-- Driving `readdirF` page by page from index `i` of a loaded cache
yields exactly the remaining entries. -/
theorem paginate_drop (infos : List FileInfoM) (pth : String) (k : Int)
    (hk : 0 < k) :
    ∀ fuel i, infos.length - i < fuel →
      paginate (.ok infos) k fuel ⟨pth, false, true, some infos, i⟩ =
        infos.drop i := by
  intro fuel
  induction fuel with
  | zero => intro i h; omega
  | succ f ih =>
    intro i h
    have hk' : ¬ k ≤ 0 := by omega
    by_cases hlen : infos.length ≤ i
    · have heof : readdirF (.ok infos) ⟨pth, false, true, some infos, i⟩ k =
          (.eof, ⟨pth, false, true, some infos, i⟩) := by
        simp [readdirF, readdirPage, hk', hlen]
      rw [show paginate (.ok infos) k (f + 1)
          ⟨pth, false, true, some infos, i⟩ = [] by
        simp only [paginate]; rw [heof]]
      exact (List.drop_eq_nil_of_le hlen).symm
    · push_neg at hlen
      have hlen' : ¬ (infos.length ≤ i) := by omega
      have hrd : readdirF (.ok infos) ⟨pth, false, true, some infos, i⟩ k =
          (.entries ((infos.drop i).take k.toNat),
            ⟨pth, false, true, some infos,
              min (i + k.toNat) infos.length⟩) := by
        simp [readdirF, readdirPage, hk', hlen']
      rw [show paginate (.ok infos) k (f + 1)
          ⟨pth, false, true, some infos, i⟩ =
          (infos.drop i).take k.toNat ++ paginate (.ok infos) k f
            ⟨pth, false, true, some infos,
              min (i + k.toNat) infos.length⟩ by
        simp only [paginate]; rw [hrd]]
      rw [ih (min (i + k.toNat) infos.length) (by omega)]
      exact take_min_drop infos i k.toNat

/-- C5: for every page size `k > 0`, driving `Readdir(k)` to the
end-of-listing signal on a fresh directory handle enumerates exactly the
entries, in order, that a single `Readdir` with a non-positive count
returns; the EOF signal appears exactly once the cached children are
exhausted and is idempotent (the handle state is left unchanged), and is
never produced while entries remain. -/
theorem readdir_pagination_spec (infos : List FileInfoM) (pth : String)
    (k : Int) (hk : 0 < k) :
    paginate (.ok infos) k (infos.length + 1)
        ⟨pth, false, true, none, 0⟩ = infos ∧
    (readdirF (.ok infos) ⟨pth, false, true, none, 0⟩ 0).1 =
      (if infos = [] then .eof else .entries infos) ∧
    (∀ s : DirSt, s.closed = false → s.isDir = true →
      s.dirInfos = some infos → infos.length ≤ s.dirIndex →
      readdirF (.ok infos) s k = (.eof, s)) ∧
    (∀ s : DirSt, s.closed = false → s.isDir = true →
      s.dirInfos = some infos → s.dirIndex < infos.length →
      (readdirF (.ok infos) s k).1 ≠ .eof) := by
  have hk' : ¬ k ≤ 0 := by omega
  refine ⟨?_, ?_, ?_, ?_⟩
  · cases hinf : infos with
    | nil => simp [paginate, readdirF, readdirPage, hk']
    | cons a rest =>
      have hlen0 : ¬ ((a :: rest).length ≤ 0) := by simp
      have hrd : readdirF (.ok (a :: rest))
          ⟨pth, false, true, none, 0⟩ k =
          (.entries (((a :: rest).drop 0).take k.toNat),
            ⟨pth, false, true, some (a :: rest),
              min (0 + k.toNat) (a :: rest).length⟩) := by
        simp [readdirF, readdirPage, hk', hlen0]
      rw [show paginate (.ok (a :: rest)) k ((a :: rest).length + 1)
          ⟨pth, false, true, none, 0⟩ =
          ((a :: rest).drop 0).take k.toNat ++
            paginate (.ok (a :: rest)) k (a :: rest).length
              ⟨pth, false, true, some (a :: rest),
                min (0 + k.toNat) (a :: rest).length⟩ by
        simp only [paginate]; rw [hrd]]
      rw [paginate_drop (a :: rest) pth k hk (a :: rest).length
        (min (0 + k.toNat) (a :: rest).length) (by simp; omega)]
      exact take_min_drop (a :: rest) 0 k.toNat
  · by_cases hinf : infos = [] <;>
      simp [readdirF, readdirPage, hinf]
  · intro s h1 h2 h3 h4
    have : readdirF (.ok infos) s k = (.eof, s) := by
      simp [readdirF, readdirPage, h1, h2, h3, hk', h4]
    exact this
  · intro s h1 h2 h3 h4
    have h4' : ¬ (infos.length ≤ s.dirIndex) := by omega
    simp [readdirF, readdirPage, h1, h2, h3, hk', h4']

/-- Witness for C5 on a two-entry listing with page size 1. -/
theorem readdir_pagination_spec_witness :
    paginate (.ok [⟨"a", 1, 420, 0, false⟩, ⟨"b", 2, 420, 0, false⟩]) 1 3
        ⟨"/d", false, true, none, 0⟩ =
      [⟨"a", 1, 420, 0, false⟩, ⟨"b", 2, 420, 0, false⟩] :=
  (readdir_pagination_spec _ "/d" 1 (by decide)).1

/-! ### C6: invalid seeks do not move the offset -/

/-- C6: on an open handle, a seek with an unrecognized whence value, or
one whose resulting absolute offset would be negative, returns an
error and leaves the handle's stored offset exactly as it was (for the
whence-end case with uncached metadata, the stat result may be cached,
but the offset is unchanged). -/
theorem seek_invalid_spec (statRes : Except FsErr FileInfoM) (s : SeekSt)
    (offset whence : Int) (hopen : s.closed = false) :
    (¬(whence = 0 ∨ whence = 1 ∨ whence = 2) →
      seekF statRes s offset whence =
        (.error (.invalidSeek offset whence), s)) ∧
    (whence = 0 → offset < 0 →
      seekF statRes s offset whence =
        (.error (.invalidSeek offset whence), s)) ∧
    (whence = 1 → s.offset + offset < 0 →
      seekF statRes s offset whence =
        (.error (.invalidSeek offset whence), s)) ∧
    (whence = 2 → ∀ i, s.info = some i → i.size + offset < 0 →
      seekF statRes s offset whence =
        (.error (.invalidSeek offset whence), s)) ∧
    (whence = 2 → s.info = none → ∀ i, statRes = .ok i →
      i.size + offset < 0 →
      seekF statRes s offset whence =
        (.error (.invalidSeek offset whence), { s with info := some i })) := by
  refine ⟨fun hw => ?_, fun hw hneg => ?_, fun hw hneg => ?_,
    fun hw i hi hneg => ?_, fun hw hi i hst hneg => ?_⟩
  · push_neg at hw
    obtain ⟨h0, h1, h2⟩ := hw
    simp [seekF, hopen, h0, h1, h2]
  · subst hw
    simp [seekF, hopen, hneg]
  · subst hw
    simp [seekF, hopen, hneg]
  · subst hw
    simp [seekF, hopen, hi, hneg]
  · subst hw
    simp [seekF, hopen, hi, hst, hneg]

/-- Witness for C6 on a concrete handle: an unknown whence and a
negative-target seek both fail and leave the state untouched. -/
theorem seek_invalid_spec_witness :
    seekF (.ok ⟨"f", 3, 420, 0, false⟩) ⟨"/f", false, 5, none, false⟩ 3 7 =
      (.error (.invalidSeek 3 7), ⟨"/f", false, 5, none, false⟩) ∧
    seekF (.ok ⟨"f", 3, 420, 0, false⟩) ⟨"/f", false, 5, none, false⟩
        (-9) 1 =
      (.error (.invalidSeek (-9) 1), ⟨"/f", false, 5, none, false⟩) :=
  ⟨(seek_invalid_spec _ _ 3 7 rfl).1 (by decide),
    (seek_invalid_spec _ _ (-9) 1 rfl).2.2.1 rfl (by decide)⟩

/-! ### C10: Sync drains the shared buffer -/

/-- C10: on a fresh writable file handle, the sequence `Write b1`,
`Sync`, `Write b2`, `Close` succeeds throughout; after the `Sync` the
accumulation buffer is empty (it was passed as the PUT body and drained)
and the modified flag is cleared, so the `Close`-time PUT uploads
exactly `b2` — the uploads are `b1` then `b2`, and the remote content
afterwards is `b2` alone, not `b1 ++ b2`. -/
theorem sync_buffer_drain_spec (s : WrSt) (b1 b2 : List Nat)
    (hclosed : s.closed = false) (hdir : s.isDir = false)
    (hflag : s.flag &&& (oWRONLY ||| oRDWR) ≠ 0)
    (hbuf : s.buffer = none) (_hmod : s.modified = false)
    (hputs : s.puts = []) :
    (writeF s b1).1 = .ok b1.length ∧
    (syncF (writeF s b1).2).1 = .ok () ∧
    (syncF (writeF s b1).2).2.buffer = some [] ∧
    (syncF (writeF s b1).2).2.modified = false ∧
    (writeF (syncF (writeF s b1).2).2 b2).1 = .ok b2.length ∧
    (closeF (writeF (syncF (writeF s b1).2).2 b2).2).1 = .ok () ∧
    (closeF (writeF (syncF (writeF s b1).2).2 b2).2).2.puts =
      [(s.path, b1), (s.path, b2)] ∧
    (closeF (writeF (syncF (writeF s b1).2).2 b2).2).2.remote =
      some b2 := by
  have h1 : writeF s b1 =
      (.ok b1.length,
        { s with
            buffer := some b1, offset := s.offset + b1.length,
            modified := true }) := by
    simp [writeF, hclosed, hdir, hflag, hbuf]
  have h2 : syncF (writeF s b1).2 =
      (.ok (),
        { s with
            buffer := some [], offset := s.offset + b1.length,
            modified := false, remote := some b1,
            puts := [(s.path, b1)] }) := by
    rw [h1]
    simp [syncF, hclosed, hputs]
  have h3 : writeF (syncF (writeF s b1).2).2 b2 =
      (.ok b2.length,
        { s with
            buffer := some b2,
            offset := s.offset + b1.length + b2.length,
            modified := true, remote := some b1,
            puts := [(s.path, b1)] }) := by
    rw [h2]
    simp [writeF, hclosed, hdir, hflag]
  have h4 : closeF (writeF (syncF (writeF s b1).2).2 b2).2 =
      (.ok (),
        { s with
            buffer := some [],
            offset := s.offset + b1.length + b2.length,
            modified := true, closed := true, hasReader := false,
            remote := some b2,
            puts := [(s.path, b1), (s.path, b2)] }) := by
    rw [h3]
    simp [closeF, hclosed]
  rw [h4, h3, h2, h1]
  exact ⟨rfl, rfl, rfl, rfl, rfl, rfl, rfl, rfl⟩

/-- Witness for C10 on a concrete read-write handle. -/
theorem sync_buffer_drain_spec_witness :
    (closeF (writeF (syncF (writeF
        ⟨"/f", 2, 0, false, none, false, false, false, none, []⟩
        [1]).2).2 [2, 3]).2).2.remote = some [2, 3] :=
  (sync_buffer_drain_spec
    ⟨"/f", 2, 0, false, none, false, false, false, none, []⟩
    [1] [2, 3] rfl rfl (by decide) rfl rfl rfl).2.2.2.2.2.2.2

/-! ### C1: OpenFile semantics -/

/-- C1: `OpenFile` first stats the cleaned target path; when the target
does not exist, a missing create flag yields a not-exist error, and with
the create flag it uploads empty content via PUT and re-stats, the
handle's initial metadata coming from the re-stat; when the target
exists, create together with exclusive yields an already-exists error,
and the truncate flag on a non-directory makes it upload empty content
immediately before returning the handle. -/
theorem openFile_spec (env : OpenEnv) (cwd name : String) (flag : Nat) :
    (openFileF env cwd name flag).2.head? =
      some (.statOp (cleanPath cwd name)) ∧
    (∀ e, env.stat1 = .error e → isNotExist e = true →
      flag &&& oCREATE = 0 →
      openFileF env cwd name flag =
        (.error (.notExist "open" (cleanPath cwd name)),
          [.statOp (cleanPath cwd name)])) ∧
    (∀ e, env.stat1 = .error e → isNotExist e = true →
      flag &&& oCREATE ≠ 0 → env.putRes = none →
      ∀ i, env.stat2 = .ok i →
      openFileF env cwd name flag =
        (.ok (mkFileH (cleanPath cwd name) flag i),
          [.statOp (cleanPath cwd name),
            .putEmpty (cleanPath cwd name),
            .statOp (cleanPath cwd name)])) ∧
    (∀ i, env.stat1 = .ok i → flag &&& oCREATE ≠ 0 →
      flag &&& oEXCL ≠ 0 →
      openFileF env cwd name flag =
        (.error (.exist "open" (cleanPath cwd name)),
          [.statOp (cleanPath cwd name)])) ∧
    (∀ i, env.stat1 = .ok i →
      ¬(flag &&& oCREATE ≠ 0 ∧ flag &&& oEXCL ≠ 0) →
      flag &&& oTRUNC ≠ 0 → i.isDir = false → env.putRes = none →
      openFileF env cwd name flag =
        (.ok (mkFileH (cleanPath cwd name) flag i),
          [.statOp (cleanPath cwd name),
            .putEmpty (cleanPath cwd name)])) := by
  refine ⟨?_, fun e h1 h2 h3 => ?_, fun e h1 h2 h3 h4 i h5 => ?_,
    fun i h1 h2 h3 => ?_, fun i h1 h2 h3 h4 h5 => ?_⟩
  · unfold openFileF
    cases henv : env.stat1 <;> (repeat' split) <;> rfl
  · simp [openFileF, h1, h2, h3]
  · simp [openFileF, h1, h2, h3, h4, h5]
  · simp [openFileF, h1, h2, h3]
  · simp [openFileF, h1, h2, h3, h4, h5]

/-- Witness for C1: missing target without the create flag, and an
existing target with create+exclusive. -/
theorem openFile_spec_witness :
    openFileF ⟨.error (.notExist "stat" "/f"), none,
        .ok ⟨"f", 0, 420, 0, false⟩⟩ "/" "f" 0 =
      (.error (.notExist "open" "/f"), [.statOp "/f"]) ∧
    openFileF ⟨.ok ⟨"f", 0, 420, 0, false⟩, none,
        .error (.notExist "stat" "/f")⟩ "/" "f" (64 + 128) =
      (.error (.exist "open" "/f"), [.statOp "/f"]) := by
  constructor
  · have h := (openFile_spec ⟨.error (.notExist "stat" "/f"), none,
      .ok ⟨"f", 0, 420, 0, false⟩⟩ "/" "f" 0).2.1
      (.notExist "stat" "/f") rfl rfl (by decide)
    rw [h]
    rw [show cleanPath "/" "f" = "/f" by decide]
  · have h := (openFile_spec ⟨.ok ⟨"f", 0, 420, 0, false⟩, none,
      .error (.notExist "stat" "/f")⟩ "/" "f" (64 + 128)).2.2.2.1
      ⟨"f", 0, 420, 0, false⟩ rfl (by decide) (by decide)
    rw [h]
    rw [show cleanPath "/" "f" = "/f" by decide]

end Webdavfs
